import Mathlib

set_option maxHeartbeats 1000000

set_option allowUnsafeReducibility true in
attribute [semireducible] Rat.mul Rat.add Rat.sub

/-
Verification development for the sticker-smith label generator.

Shallow embedding notes:
- JS strings are modelled as `List Char` (for the text fitter and drawing ops)
  or Lean `String` (for record fields and column names).
- JS numbers are modelled as `ℚ`; text widths returned by `getTextWidth` are
  abstracted into a measurement function passed as a dependency.
- Spreadsheet cells are modelled as `Cell` (absent/null/undefined collapsed to
  `Cell.null`, everything else a string); `parseInt`/`parseFloat` are modelled
  on decimal literals (no hex / exponent forms).
- CODE128 encodability (whether the JsBarcode call throws) is abstracted as a
  boolean predicate parameter `enc`.
- Rendering is modelled as the ordered list of drawing operations issued to the
  jsPDF surface.
-/

/-! ## Grid geometry constants (pdfGenerator sources) -/

def LABELS_PER_ROW : Nat := 3

def LABELS_PER_COLUMN : Nat := 8

def LABELS_PER_PAGE : Nat := LABELS_PER_ROW * LABELS_PER_COLUMN

def PAGE_WIDTH : ℚ := 210

def PAGE_HEIGHT : ℚ := 297

def LABEL_WIDTH : ℚ := 70

def LABEL_HEIGHT : ℚ := 36

def MARGIN_X : ℚ := (PAGE_WIDTH - ((LABELS_PER_ROW : ℚ) * LABEL_WIDTH)) / 2

def MARGIN_Y : ℚ := (PAGE_HEIGHT - ((LABELS_PER_COLUMN : ℚ) * LABEL_HEIGHT)) / 2

/-! ## Product record (src/types/product.ts) -/

structure Product where
  codebar : String
  qte : Int
  prix : ℚ
  designation : String
  reference : String
  image : Option String
deriving DecidableEq

/-! ## Page layout (generatePDF page/slice/row/col computation) -/

structure Placement (α : Type) where
  product : α
  row : Nat
  col : Nat
deriving DecidableEq

/-- `products.slice(page*24, min(page*24+24, length))` of `generatePDF`. -/
def pageProducts {α : Type} (products : List α) (page : Nat) : List α :=
  (products.drop (page * LABELS_PER_PAGE)).take LABELS_PER_PAGE

/-- The inner loop of `generatePDF`: placement `i` gets
`row = i / LABELS_PER_ROW`, `col = i % LABELS_PER_ROW`. -/
def placeFrom {α : Type} : List α → Nat → List (Placement α)
  | [], _ => []
  | a :: rest, i => ⟨a, i / LABELS_PER_ROW, i % LABELS_PER_ROW⟩ :: placeFrom rest (i + 1)

def layoutPage {α : Type} (products : List α) (page : Nat) : List (Placement α) :=
  placeFrom (pageProducts products page) 0

/-- `Math.ceil(products.length / LABELS_PER_PAGE)`. -/
def totalPages (n : Nat) : Nat := (n + (LABELS_PER_PAGE - 1)) / LABELS_PER_PAGE

def layoutPages {α : Type} (products : List α) : List (List (Placement α)) :=
  (List.range (totalPages products.length)).map (layoutPage products)

/-! ## Text fitter (the measure-and-truncate loop of drawLabelToPDF) -/

/-- The literal `'...'` appended by the truncation loop. -/
def ellipsisMark : List Char := ['.', '.', '.']

/-- The `while (getTextWidth(d + '...') > maxW && d.length > 0) d = d.slice(0,-1)`
loop, with fuel equal to the starting length (each iteration removes exactly one
character, so the fuel never runs out before the loop guard fails). -/
def fitLoopAux (mea : List Char → ℚ) (w : ℚ) : Nat → List Char → List Char
  | 0, s => s
  | fuel + 1, s =>
    if 0 < s.length ∧ w < mea (s ++ ellipsisMark) then fitLoopAux mea w fuel s.dropLast
    else s

def fitLoop (mea : List Char → ℚ) (w : ℚ) (s : List Char) : List Char :=
  fitLoopAux mea w s.length s

/-- The full truncation logic: if the measured width exceeds `w`, run the
stripping loop and append `'...'`; otherwise return the text unchanged. -/
def fit (mea : List Char → ℚ) (w : ℚ) (t : List Char) : List Char :=
  if w < mea t then fitLoop mea w t ++ ellipsisMark else t

def sixDots : List Char := ['.', '.', '.', '.', '.', '.']

/-- A measurement function that is not monotone under prefixes. -/
def adversarialMeasure (s : List Char) : ℚ := if s = sixDots then 0 else 10

/-! ## Price decomposer (branded template, pdfGenerator lines 119-144) -/

/-- Two fraction digits as printed by `toFixed(2)` after the decimal point. -/
def pad2 (r : Nat) : List Char :=
  if r < 10 then '0' :: Nat.toDigits 10 r else Nat.toDigits 10 r

def intToChars (n : Int) : List Char :=
  if n < 0 then '-' :: Nat.toDigits 10 n.natAbs else Nat.toDigits 10 n.toNat

/-- `Math.floor`, via the executable floor on `ℚ`. -/
def jsFloor (q : ℚ) : Int := q.floor

/-- JS `q % 1` for the nonnegative prices this program displays. -/
def jsFract (q : ℚ) : ℚ := q - (q.floor : ℚ)

/-- Round to the nearest integer, half up: how `toFixed` resolves fractions of
a cent on this program's nonnegative prices. -/
def jsRound (q : ℚ) : Int := (q + mkRat 1 2).floor

/-- `q.toFixed(2)` for nonnegative `q`, modelled at exact rational precision
(round to an integer number of cents, then print). -/
def ratToFixed2 (q : ℚ) : List Char :=
  Nat.toDigits 10 ((jsRound (q * 100)).toNat / 100) ++
    '.' :: pad2 ((jsRound (q * 100)).toNat % 100)

/-- The branded template price display:
`priceNumber = Math.floor(prix).toString()`,
`hasFraction = prix % 1 !== 0`,
`decimal = (prix % 1).toFixed(2).substring(1)`.
Returned as (integerPart, hasFraction, fractionPart). -/
def decomposePrice (q : ℚ) : List Char × Bool × List Char :=
  (intToChars (jsFloor q), decide (jsFract q ≠ 0), (ratToFixed2 (jsFract q)).drop 1)

/-! ## Drawing operations issued to the jsPDF surface -/

inductive FontStyle
  | normal
  | bold
deriving DecidableEq

inductive ImgFmt
  | jpeg
  | png
deriving DecidableEq

inductive DrawOp
  | setDrawColor (r g b : Nat)
  | setLineWidth (w : ℚ)
  | rect (x y w h : ℚ)
  | rectFill (x y w h : ℚ)
  | setFillColor (r g b : Nat)
  | setFontSize (s : ℚ)
  | setFont (style : FontStyle)
  | setTextColor (r g b : Nat)
  | text (s : List Char) (x y : ℚ)
  | addImage (fmt : ImgFmt) (x y w h : ℚ)
  | addPage
deriving DecidableEq

/-- `getTextWidth` under the current font size and style. -/
abbrev TextMeasure : Type := ℚ → FontStyle → List Char → ℚ

/-- The barcode symbol is the only PNG image the compact template ever adds. -/
def DrawOp.isBarcodeSymbol : DrawOp → Bool
  | .addImage .png _ _ _ _ => true
  | _ => false

def noImageText : List Char := "No Image".toList

/-- `drawPlaceholderImage` from the compact template source. -/
def drawPlaceholderImage (mea : TextMeasure) (x y size : ℚ) : List DrawOp :=
  [DrawOp.setFillColor 243 244 246, DrawOp.rectFill x y size size,
   DrawOp.setFontSize 6, DrawOp.setFont .normal, DrawOp.setTextColor 156 163 175,
   DrawOp.text noImageText (x + (size - mea 6 .normal noImageText) / 2) (y + size / 2)]

/-- `drawLabelToPDF` of the compact template (part_000), as the ordered list of
operations issued to the pdf surface. `enc` abstracts whether JsBarcode can
encode the text (the try/catch around the barcode block); `cache` abstracts
whether the image cache holds an image for the product reference (successful
canvas drawing modelled as succeeding; a miss draws the placeholder). -/
def drawLabelToPDF (mea : TextMeasure) (enc : String → Bool) (cache : String → Bool)
    (p : Product) (x y : ℚ) : List DrawOp :=
  let padding : ℚ := 2
  let contentX := x + padding
  let contentY := y + padding
  let contentWidth := LABEL_WIDTH - padding * 2
  let imageSize : ℚ := 15
  let textStartX := contentX + imageSize + 2
  let textWidth := contentWidth - imageSize - 2
  let maxDesignationWidth := textWidth - 15
  let designation := fit (mea 10 .bold) maxDesignationWidth p.designation.toList
  let priceText := ratToFixed2 p.prix ++ (" €").toList
  let priceWidth := mea 12 .bold priceText
  let qtyText := ("Qté: ").toList ++ (toString p.qte).toList
  let qtyWidth := mea 7 .normal qtyText
  let codeWidth := mea 6 .normal p.codebar.toList
  [DrawOp.setDrawColor 229 231 235, DrawOp.setLineWidth (1 / 10),
   DrawOp.rect x y LABEL_WIDTH LABEL_HEIGHT]
  ++ (if cache p.reference then
        [DrawOp.addImage .jpeg contentX contentY imageSize imageSize]
      else drawPlaceholderImage mea contentX contentY imageSize)
  ++ [DrawOp.setFontSize 10, DrawOp.setFont .bold, DrawOp.setTextColor 17 24 39,
      DrawOp.text designation textStartX (contentY + 4)]
  ++ [DrawOp.setFontSize 7, DrawOp.setFont .normal, DrawOp.setTextColor 107 114 128,
      DrawOp.text (("Ref: ") ++ p.reference).toList textStartX (contentY + 8)]
  ++ [DrawOp.setFontSize 12, DrawOp.setFont .bold, DrawOp.setTextColor 220 38 38,
      DrawOp.text priceText (x + LABEL_WIDTH - padding - priceWidth) (contentY + 4)]
  ++ (if 1 < p.qte then
        [DrawOp.setFontSize 7, DrawOp.setFont .normal, DrawOp.setTextColor 107 114 128,
         DrawOp.text qtyText (x + LABEL_WIDTH - padding - qtyWidth) (contentY + 8)]
      else [])
  ++ (if enc p.codebar then
        [DrawOp.addImage .png (contentX + 2) (y + LABEL_HEIGHT - padding - 6 - 2)
           (contentWidth - 4) 6,
         DrawOp.setFontSize 6, DrawOp.setFont .normal, DrawOp.setTextColor 55 65 81,
         DrawOp.text p.codebar.toList (x + (LABEL_WIDTH - codeWidth) / 2)
           (y + LABEL_HEIGHT - 1)]
      else [])

/-- One page of `generatePDF`: each placement is rendered at
`x = MARGIN_X + col*LABEL_WIDTH`, `y = MARGIN_Y + row*LABEL_HEIGHT`. -/
def pageOps (mea : TextMeasure) (enc cache : String → Bool) (products : List Product)
    (page : Nat) : List DrawOp :=
  ((layoutPage products page).map (fun pl =>
    drawLabelToPDF mea enc cache pl.product (MARGIN_X + (pl.col : ℚ) * LABEL_WIDTH)
      (MARGIN_Y + (pl.row : ℚ) * LABEL_HEIGHT))).flatten

/-- Recursive form of one page's rendering, tracking the local placement index. -/
def pageAuxOps (mea : TextMeasure) (enc cache : String → Bool) :
    List Product → Nat → List DrawOp
  | [], _ => []
  | p :: rest, i =>
    drawLabelToPDF mea enc cache p (MARGIN_X + ((i % LABELS_PER_ROW : Nat) : ℚ) * LABEL_WIDTH)
      (MARGIN_Y + ((i / LABELS_PER_ROW : Nat) : ℚ) * LABEL_HEIGHT)
    ++ pageAuxOps mea enc cache rest (i + 1)

/-- The whole `generatePDF` drawing trace: `pdf.addPage()` before every page
except the first, then the page's labels in order. -/
def generatePDFOps (mea : TextMeasure) (enc cache : String → Bool)
    (products : List Product) : List DrawOp :=
  ((List.range (totalPages products.length)).map (fun pg =>
    (if 0 < pg then [DrawOp.addPage] else []) ++ pageOps mea enc cache products pg)).flatten

def PDF_FILENAME : String := "price-labels.pdf"

/-- The artifact written by `pdf.save`: its name, how many pages the document
holds, and the drawing operations it received. -/
structure SavedPDF where
  filename : String
  pageCount : Nat
  ops : List DrawOp
deriving DecidableEq

/-- `generatePDF` end to end: build the trace and unconditionally
`pdf.save('price-labels.pdf')`. `new jsPDF()` starts the document with one
page and each `addPage` op adds one, so the saved document has
`1 + (number of addPage ops)` pages — in particular the save also happens for
an empty product list, yielding a one-page blank document. -/
def generatePDF (mea : TextMeasure) (enc cache : String → Bool)
    (products : List Product) : SavedPDF :=
  { filename := PDF_FILENAME
    pageCount := 1 + (generatePDFOps mea enc cache products).count DrawOp.addPage
    ops := generatePDFOps mea enc cache products }

/-! ## Excel mapping (mapDataToProducts, part_002) -/

/-- A spreadsheet cell: `null` collapses JS null/undefined/out-of-range access,
everything else is modelled as its string contents. -/
inductive Cell
  | null
  | str (s : String)
deriving DecidableEq

structure ColumnMapping where
  codebar : String
  qte : String
  prix : String
  designation : String
  reference : String
deriving DecidableEq

/-- `String(cell || dflt)`: JS falsiness of a cell is null/undefined/empty string. -/
def jsStringOr (c : Cell) (dflt : String) : String :=
  match c with
  | .null => dflt
  | .str s => if s == "" then dflt else s

def natOfDigits (l : List Char) : Nat := l.foldl (fun a c => 10 * a + (c.toNat - 48)) 0

/-- JS `parseInt` on decimal input: skip whitespace, optional sign, maximal run
of digits; `none` models NaN. -/
def jsParseInt (s : String) : Option Int :=
  let cs := s.toList.dropWhile (fun c => c.isWhitespace)
  let sr : Int × List Char :=
    match cs with
    | '-' :: r => (-1, r)
    | '+' :: r => (1, r)
    | r => (1, r)
  let ds := sr.2.takeWhile (fun c => c.isDigit)
  if ds.isEmpty then none else some (sr.1 * (natOfDigits ds : Int))

/-- JS `parseFloat` on decimal input (no exponents), `none` models NaN. -/
def jsParseFloat (s : String) : Option ℚ :=
  let cs := s.toList.dropWhile (fun c => c.isWhitespace)
  let sr : ℚ × List Char :=
    match cs with
    | '-' :: r => (-1, r)
    | '+' :: r => (1, r)
    | r => (1, r)
  let ds := sr.2.takeWhile (fun c => c.isDigit)
  let rest := sr.2.drop ds.length
  match rest with
  | '.' :: r2 =>
    let fs := r2.takeWhile (fun c => c.isDigit)
    if ds.isEmpty && fs.isEmpty then none
    else some (sr.1 * ((natOfDigits ds : ℚ) + (natOfDigits fs : ℚ) / (10 ^ fs.length)))
  | _ => if ds.isEmpty then none else some (sr.1 * (natOfDigits ds : ℚ))

/-- `parseInt(String(row[qte] || '1')) || 1`. -/
def qteOfCell (c : Cell) : Int :=
  match jsParseInt (jsStringOr c ("1")) with
  | none => 1
  | some n => if n = 0 then 1 else n

/-- `parseFloat(String(row[prix] || '0')) || 0`. -/
def prixOfCell (c : Cell) : ℚ :=
  (jsParseFloat (jsStringOr c ("0"))).getD 0

/-- `headers.indexOf(name)`, `none` standing for `-1`. -/
def indexOfCell (headers : List Cell) (name : String) : Option Nat :=
  headers.findIdx? (fun c => c == Cell.str name)

/-- The mapped column names whose index is `-1`, in field-declaration order
(codebar, qte, prix, designation, reference). -/
def missingColumns (headers : List Cell) (m : ColumnMapping) : List String :=
  [m.codebar, m.qte, m.prix, m.designation, m.reference].filter
    (fun nm => indexOfCell headers nm == none)

/-- `array.join(', ')`. -/
def joinComma : List String → String
  | [] => ""
  | [s] => s
  | s :: rest => s ++ ", " ++ joinComma rest

/-- `row && row.length > 0 && row.some(cell => cell !== null && cell !== undefined && cell !== '')`. -/
def rowHasData (row : List Cell) : Bool :=
  row.any (fun c => !(c == Cell.null) && !(c == Cell.str ""))

/-- JS `String.prototype.trim`: strip whitespace from both ends (modelled on
the character list so that it evaluates inside the kernel). -/
def jsTrim (s : String) : String :=
  String.mk (((s.toList.dropWhile (fun c => c.isWhitespace)).reverse.dropWhile
    (fun c => c.isWhitespace)).reverse)

structure ColIdx where
  codebar : Nat
  qte : Nat
  prix : Nat
  designation : Nat
  reference : Nat

/-- The per-row mapping body: stringify/trim the three text fields, parse the
quantity and price, drop the row (`null`) when reference/codebar/designation
is empty after trimming. -/
def rowToProduct (idx : ColIdx) (imgs : String → Option String) (row : List Cell) :
    Option Product :=
  let reference := jsTrim (jsStringOr (row.getD idx.reference Cell.null) (""))
  let codebar := jsTrim (jsStringOr (row.getD idx.codebar Cell.null) (""))
  let designation := jsTrim (jsStringOr (row.getD idx.designation Cell.null) (""))
  let qte := qteOfCell (row.getD idx.qte Cell.null)
  let prix := prixOfCell (row.getD idx.prix Cell.null)
  if reference == "" || codebar == "" || designation == "" then none
  else some ⟨codebar, qte, prix, designation, reference, imgs reference⟩

/-- `mapDataToProducts` (part_002): early return for fewer than two rows, then
column-index validation throwing a message that joins all missing column names,
then the filter/map/filter pipeline over the data rows. -/
def mapDataToProducts (data : List (List Cell)) (m : ColumnMapping)
    (imgs : String → Option String) : Except String (List Product) :=
  if data.length < 2 then .ok []
  else
    let headers := data.headD []
    let dataRows := data.drop 1
    match missingColumns headers m with
    | [] =>
      let idx : ColIdx :=
        ⟨(indexOfCell headers m.codebar).getD 0, (indexOfCell headers m.qte).getD 0,
         (indexOfCell headers m.prix).getD 0, (indexOfCell headers m.designation).getD 0,
         (indexOfCell headers m.reference).getD 0⟩
      .ok ((dataRows.filter rowHasData).filterMap (rowToProduct idx imgs))
    | missing => .error ("Missing columns: " ++ joinComma missing)

/-- A concrete prefix-monotone measurement function (one unit per character). -/
def lenMeasure (s : List Char) : ℚ := s.length

/-- A concrete strictly positive measurement function. -/
def posMeasure (s : List Char) : ℚ := s.length + 1

/-! ## Layout lemmas -/

theorem LABELS_PER_PAGE_eq : LABELS_PER_PAGE = 24 := rfl

theorem placeFrom_length {α : Type} (l : List α) (i : Nat) :
    (placeFrom l i).length = l.length := by
  induction l generalizing i with
  | nil => simp [placeFrom]
  | cons a rest ih => simp [placeFrom, ih]

theorem placeFrom_map_product {α : Type} (l : List α) (i : Nat) :
    (placeFrom l i).map Placement.product = l := by
  induction l generalizing i with
  | nil => simp [placeFrom]
  | cons a rest ih => simp [placeFrom, ih]

theorem placeFrom_map_rowcol {α : Type} (l : List α) (i : Nat) :
    (placeFrom l i).map (fun pl => (pl.row, pl.col)) =
      (List.range' i l.length).map (fun j => (j / LABELS_PER_ROW, j % LABELS_PER_ROW)) := by
  induction l generalizing i with
  | nil => simp [placeFrom]
  | cons a rest ih => simp [placeFrom, List.range', ih]

theorem rowcol_injective :
    Function.Injective (fun j : Nat => (j / LABELS_PER_ROW, j % LABELS_PER_ROW)) := by
  intro a b h
  simp only [Prod.mk.injEq, LABELS_PER_ROW] at h
  omega

theorem pageProducts_length {α : Type} (l : List α) (pg : Nat) :
    (pageProducts l pg).length = min LABELS_PER_PAGE (l.length - pg * LABELS_PER_PAGE) := by
  simp [pageProducts]

theorem layoutPage_length {α : Type} (l : List α) (pg : Nat) :
    (layoutPage l pg).length = min LABELS_PER_PAGE (l.length - pg * LABELS_PER_PAGE) := by
  rw [layoutPage, placeFrom_length, pageProducts_length]

theorem layoutPage_map_rowcol {α : Type} (l : List α) (pg : Nat) :
    (layoutPage l pg).map (fun pl => (pl.row, pl.col)) =
      (List.range' 0 (pageProducts l pg).length).map
        (fun j => (j / LABELS_PER_ROW, j % LABELS_PER_ROW)) := by
  rw [layoutPage, placeFrom_map_rowcol]

/-- C1 counterexample: (i) with a single product the one (final) page holds a
single placement at (0,0), so its `(row, col)` pairs do not exactly cover
`{0..7} × {0..2}` as the claim states; (ii) for an empty product list
`generatePDF` still saves an output document — `pdf.save('price-labels.pdf')`
runs unconditionally on a document jsPDF created with one blank initial page —
so "no output document when n = 0" also fails: the saved page count is 1, not 0. -/
theorem layout_exact_cover_cex :
    (¬ (∀ r, r < 8 → ∀ c, c < 3 →
        ∃ pl ∈ layoutPage ([0] : List Nat) 0, pl.row = r ∧ pl.col = c)) ∧
    generatePDF (fun _ _ s => (s.length : ℚ)) (fun s => !(s == "")) (fun _ => false)
        ([] : List Product)
      = ⟨PDF_FILENAME, 1, []⟩ ∧
    ¬ ((1 : Nat) = 0) := by
  refine ⟨by decide, rfl, by decide⟩

/-- Flattening the page slices in page order recovers the product list. -/
theorem flatten_pageProducts {α : Type} :
    ∀ (n : Nat) (l : List α), l.length ≤ n * LABELS_PER_PAGE →
      ((List.range n).map (fun pg => pageProducts l pg)).flatten = l := by
  intro n
  induction n with
  | zero =>
    intro l hl
    simp only [Nat.zero_mul, Nat.le_zero, List.length_eq_zero] at hl
    simp [hl]
  | succ n ih =>
    intro l hl
    rw [List.range_succ_eq_map]
    have hshift : ∀ pg : Nat, pageProducts l (pg + 1) =
        pageProducts (l.drop LABELS_PER_PAGE) pg := by
      intro pg
      simp only [pageProducts, List.drop_drop]
      congr 1
      congr 1
      ring
    have hdrop : (l.drop LABELS_PER_PAGE).length ≤ n * LABELS_PER_PAGE := by
      rw [List.length_drop]
      rw [Nat.succ_mul] at hl
      omega
    calc ((0 :: (List.range n).map Nat.succ).map (fun pg => pageProducts l pg)).flatten
        = pageProducts l 0 ++
            (((List.range n).map Nat.succ).map (fun pg => pageProducts l pg)).flatten := by
          simp
      _ = l.take LABELS_PER_PAGE ++
            ((List.range n).map (fun pg => pageProducts (l.drop LABELS_PER_PAGE) pg)).flatten := by
          rw [List.map_map]
          simp only [pageProducts, Nat.zero_mul, List.drop_zero]
          congr 1
          apply congrArg
          apply List.map_congr_left
          intro pg _
          exact hshift pg
      _ = l.take LABELS_PER_PAGE ++ l.drop LABELS_PER_PAGE := by
          rw [ih (l.drop LABELS_PER_PAGE) hdrop]
      _ = l := List.take_append_drop ..

/-- C3: the sequence of products visited by the page layout, flattened across
pages in page order and placement order, is exactly the input list. -/
theorem layout_order_preserved (α : Type) (products : List α) :
    ((layoutPages products).map (fun page => page.map Placement.product)).flatten
      = products := by
  rw [layoutPages, List.map_map]
  have heq : (fun pg => (layoutPage products pg).map Placement.product) =
      fun pg => pageProducts products pg := by
    funext pg
    rw [layoutPage, placeFrom_map_product]
  rw [Function.comp_def, heq]
  apply flatten_pageProducts
  rw [totalPages, LABELS_PER_PAGE_eq]
  omega

/-! ## Text fitter lemmas -/

theorem take_succ_dropLast {α : Type} (t : List α) (k : Nat) (h : k + 1 ≤ t.length) :
    (t.take (k + 1)).dropLast = t.take k := by
  rw [List.dropLast_eq_take, List.take_take, List.length_take]
  congr 1
  omega

theorem fitLoopAux_spec (mea : List Char → ℚ) (w : ℚ) (t : List Char) :
    ∀ k, k ≤ t.length →
      ∃ k', k' ≤ k ∧ fitLoopAux mea w k (t.take k) = t.take k' ∧
        (k' = 0 ∨ mea (t.take k' ++ ellipsisMark) ≤ w) ∧
        (∀ j, k' < j → j ≤ k → w < mea (t.take j ++ ellipsisMark)) := by
  intro k
  induction k with
  | zero =>
    intro _
    refine ⟨0, le_refl _, rfl, Or.inl rfl, ?_⟩
    intro j h1 h2
    omega
  | succ k ih =>
    intro hk
    by_cases hcond : 0 < (t.take (k + 1)).length ∧ w < mea (t.take (k + 1) ++ ellipsisMark)
    · have hstep : fitLoopAux mea w (k + 1) (t.take (k + 1)) = fitLoopAux mea w k (t.take k) := by
        conv_lhs => rw [fitLoopAux]
        rw [if_pos hcond, take_succ_dropLast t k hk]
      obtain ⟨k', h1, h2, h3, h4⟩ := ih (le_trans (Nat.le_succ k) hk)
      refine ⟨k', Nat.le_succ_of_le h1, hstep ▸ h2, h3, ?_⟩
      intro j hj1 hj2
      rcases Nat.lt_or_ge j (k + 1) with hlt | hge
      · exact h4 j hj1 (by omega)
      · have hje : j = k + 1 := by omega
        subst hje
        exact hcond.2
    · refine ⟨k + 1, le_refl _, ?_, ?_, ?_⟩
      · conv_lhs => rw [fitLoopAux]
        rw [if_neg hcond]
      · right
        push_neg at hcond
        apply hcond
        rw [List.length_take]
        omega
      · intro j h1 h2
        omega

theorem fitLoop_spec (mea : List Char → ℚ) (w : ℚ) (t : List Char) :
    ∃ k, k ≤ t.length ∧ fitLoop mea w t = t.take k ∧
      (k = 0 ∨ mea (t.take k ++ ellipsisMark) ≤ w) ∧
      (∀ j, j ≤ t.length → mea (t.take j ++ ellipsisMark) ≤ w → j ≤ k) := by
  obtain ⟨k', h1, h2, h3, h4⟩ := fitLoopAux_spec mea w t t.length (le_refl _)
  rw [List.take_length] at h2
  refine ⟨k', h1, h2, h3, ?_⟩
  intro j hj hfit
  by_contra hcon
  push_neg at hcon
  exact absurd hfit (not_le.mpr (h4 j hcon hj))

/-- C5: for maxWidth > 0, if the text measures within the limit the fitter
returns it unchanged; otherwise it returns the longest prefix `take k` such
that prefix + `'...'` fits, with the ellipsis appended (the empty prefix, i.e.
the bare ellipsis, when no prefix fits). -/
theorem fit_longest_prefix (mea : List Char → ℚ) (w : ℚ) (t : List Char) (hw : 0 < w) :
    (mea t ≤ w → fit mea w t = t) ∧
    (w < mea t →
      ∃ k, k ≤ t.length ∧ fit mea w t = t.take k ++ ellipsisMark ∧
        (k = 0 ∨ mea (t.take k ++ ellipsisMark) ≤ w) ∧
        (∀ j, j ≤ t.length → mea (t.take j ++ ellipsisMark) ≤ w → j ≤ k)) := by
  constructor
  · intro h
    rw [fit, if_neg (not_lt.mpr h)]
  · intro h
    obtain ⟨k, h1, h2, h3, h4⟩ := fitLoop_spec mea w t
    refine ⟨k, h1, ?_, h3, h4⟩
    rw [fit, if_pos h, h2]

/-- Witness for `fit_longest_prefix` with a one-unit-per-character measure at
width 4 on the text "abcdef". -/
theorem fit_longest_prefix_witness :
    (0 : ℚ) < 4 ∧
    ((lenMeasure ("abcdef").toList ≤ 4 →
        fit lenMeasure 4 ("abcdef").toList = ("abcdef").toList) ∧
      (4 < lenMeasure ("abcdef").toList →
        ∃ k, k ≤ ("abcdef").toList.length ∧
          fit lenMeasure 4 ("abcdef").toList = ("abcdef").toList.take k ++ ellipsisMark ∧
          (k = 0 ∨ lenMeasure (("abcdef").toList.take k ++ ellipsisMark) ≤ 4) ∧
          (∀ j, j ≤ ("abcdef").toList.length →
            lenMeasure (("abcdef").toList.take j ++ ellipsisMark) ≤ 4 → j ≤ k))) :=
  ⟨by decide, fit_longest_prefix lenMeasure 4 ("abcdef").toList (by decide)⟩

/-- C4 counterexample: at maxWidth 0 (≤ 0) with a one-unit-per-character
measure, the fitter returns the bare `'...'` marker, not the empty string. -/
theorem fit_nonpositive_width_cex :
    fit lenMeasure 0 ['a', 'b'] = ellipsisMark ∧ ellipsisMark ≠ ([] : List Char) := by
  constructor <;> decide

/-- C4 (amended): for every text and maxWidth ≤ 0, under any strictly positive
measurement function the fitter totals out to the bare ellipsis marker `'...'`
(whose measured width is positive, not zero); no error is possible since the
fitter is a total function. -/
theorem fit_nonpositive_width (mea : List Char → ℚ) (w : ℚ) (t : List Char)
    (hw : w ≤ 0) (hpos : ∀ s, 0 < mea s) :
    fit mea w t = ellipsisMark ∧ 0 < mea ellipsisMark := by
  refine ⟨?_, hpos ellipsisMark⟩
  have hlt : w < mea t := lt_of_le_of_lt hw (hpos t)
  rw [fit, if_pos hlt, fitLoop]
  have hnil : ∀ n (s : List Char), s.length ≤ n → fitLoopAux mea w n s = [] := by
    intro n
    induction n with
    | zero =>
      intro s hs
      have hse : s = [] := List.length_eq_zero.mp (Nat.le_zero.mp hs)
      subst hse
      rfl
    | succ n ih =>
      intro s hs
      by_cases h0 : s.length = 0
      · have hse : s = [] := List.length_eq_zero.mp h0
        subst hse
        rfl
      · conv_lhs => rw [fitLoopAux]
        rw [if_pos ⟨by omega, lt_of_le_of_lt hw (hpos _)⟩]
        apply ih
        rw [List.length_dropLast]
        omega
  rw [hnil t.length t (le_refl _)]
  rfl

/-- Witness for `fit_nonpositive_width` at width 0 on the text "a". -/
theorem fit_nonpositive_width_witness :
    (0 : ℚ) ≤ 0 ∧
    (fit posMeasure 0 ['a'] = ellipsisMark ∧ 0 < posMeasure ellipsisMark) :=
  ⟨le_refl 0, fit_nonpositive_width posMeasure 0 ['a'] (le_refl 0)
    (fun s => by simp only [posMeasure]; positivity)⟩

/-- C6 counterexample: re-fitting is not a no-op for a measurement function
that is not monotone under prefixes (here one that declares six dots narrower
than three), so the idempotence claim fails as stated for arbitrary
measurement functions. -/
theorem fit_idempotent_cex :
    fit adversarialMeasure 5 (fit adversarialMeasure 5 ['a', 'b'])
      ≠ fit adversarialMeasure 5 ['a', 'b'] := by
  decide

/-- C6 (amended): under any measurement function that is monotone under
prefixes (every real text-width measure is), the fitter is idempotent and
returns any already-fitting text unchanged. -/
theorem fit_idempotent (mea : List Char → ℚ) (w : ℚ) (t : List Char)
    (hmono : ∀ (s : List Char) (k : Nat), mea (s.take k) ≤ mea s) :
    fit mea w (fit mea w t) = fit mea w t ∧ (mea t ≤ w → fit mea w t = t) := by
  have hfix : ∀ u : List Char, mea u ≤ w → fit mea w u = u := fun u h => by
    rw [fit, if_neg (not_lt.mpr h)]
  refine ⟨?_, hfix t⟩
  by_cases h1 : mea t ≤ w
  · rw [hfix t h1]
    exact hfix t h1
  · push_neg at h1
    obtain ⟨k, hk, he, hdisj, hmax⟩ := fitLoop_spec mea w t
    have hft : fit mea w t = t.take k ++ ellipsisMark := by
      rw [fit, if_pos h1, he]
    rcases hdisj with hk0 | hfit
    · subst hk0
      rw [List.take_zero, List.nil_append] at hft
      rw [hft]
      by_cases h2 : w < mea ellipsisMark
      · obtain ⟨k, hk, he, hdisj, _⟩ := fitLoop_spec mea w ellipsisMark
        have hk0 : k = 0 := by
          rcases hdisj with h | hfitk
          · exact h
          · exfalso
            have h3 : (ellipsisMark.take k ++ ellipsisMark).take 3 = ellipsisMark := by
              have hk3 : k ≤ 3 := hk
              interval_cases k <;> decide
            have h4 := hmono (ellipsisMark.take k ++ ellipsisMark) 3
            rw [h3] at h4
            exact absurd (le_trans h4 hfitk) (not_le.mpr h2)
        rw [fit, if_pos h2, he, hk0]
        decide
      · rw [fit, if_neg h2]
    · rw [hft]
      exact hfix _ hfit

theorem lenMeasure_mono : ∀ (s : List Char) (k : Nat), lenMeasure (s.take k) ≤ lenMeasure s := by
  intro s k
  simp only [lenMeasure]
  have : (s.take k).length ≤ s.length := by
    rw [List.length_take]
    omega
  exact_mod_cast this

/-- Witness for `fit_idempotent` with a one-unit-per-character measure at
width 4 on the text "abcdef". -/
theorem fit_idempotent_witness :
    fit lenMeasure 4 (fit lenMeasure 4 ("abcdef").toList) = fit lenMeasure 4 ("abcdef").toList ∧
    (lenMeasure ("abcdef").toList ≤ 4 → fit lenMeasure 4 ("abcdef").toList = ("abcdef").toList) :=
  fit_idempotent lenMeasure 4 ("abcdef").toList lenMeasure_mono

/-! ## Price decomposer lemmas -/

theorem ratFloor_eq_intFloor (q : ℚ) : q.floor = ⌊q⌋ := rfl

theorem jsRound_intCast (z : Int) : jsRound ((z : ℚ)) = z := by
  rw [jsRound, ratFloor_eq_intFloor, Rat.mkRat_eq_div]
  have h : ⌊(z : ℚ) + 1 / 2⌋ = z := by
    rw [Int.floor_eq_iff]
    constructor
    · norm_num
    · norm_num
  simpa using h

theorem jsRound_natCast (c : Nat) : jsRound ((c : ℚ)) = (c : Int) := by
  have h := jsRound_intCast (c : Int)
  simpa using h

theorem ratFloor_cents (c : Nat) : ((c : ℚ) / 100).floor = ((c / 100 : Nat) : Int) := by
  rw [ratFloor_eq_intFloor]
  have h := Rat.floor_natCast_div_natCast c 100
  rw [show (((100 : Nat) : ℚ)) = (100 : ℚ) by norm_num] at h
  rw [h]
  omega

theorem jsFract_cents (c : Nat) : jsFract ((c : ℚ) / 100) = ((c % 100 : Nat) : ℚ) / 100 := by
  rw [jsFract, ratFloor_cents]
  have h1 : (c : ℚ) = 100 * ((c / 100 : Nat) : ℚ) + ((c % 100 : Nat) : ℚ) := by
    exact_mod_cast (congrArg (fun n : Nat => (n : ℚ)) (Nat.div_add_mod c 100)).symm
  have h2 : (((c / 100 : Nat) : Int) : ℚ) = ((c / 100 : Nat) : ℚ) := Int.cast_natCast _
  rw [h2, h1]
  ring

theorem ratToFixed2_cents (c : Nat) :
    ratToFixed2 ((c : ℚ) / 100) = Nat.toDigits 10 (c / 100) ++ '.' :: pad2 (c % 100) := by
  rw [ratToFixed2]
  have hmul : ((c : ℚ) / 100) * 100 = (c : ℚ) := by field_simp
  rw [hmul, jsRound_natCast, Int.toNat_natCast]

theorem intToChars_natCast (m : Nat) : intToChars ((m : Nat) : Int) = Nat.toDigits 10 m := by
  rw [intToChars, if_neg (not_lt.mpr (Int.natCast_nonneg m)), Int.toNat_natCast]

/-- C2 counterexample: at price 12.50 the code's fractionPart is `".50"`
(`substring(1)` of `"0.50"` keeps the decimal separator), not `"50"`, and
gluing `integerPart ++ "." ++ fractionPart` does not reproduce the compact
template's fixed-2-decimal formatting. -/
theorem price_fraction_cex :
    (decomposePrice (mkRat 25 2)).2.2 ≠ ("50").toList ∧
    (decomposePrice (mkRat 25 2)).1 ++ (".").toList ++ (decomposePrice (mkRat 25 2)).2.2
      ≠ ratToFixed2 (mkRat 25 2) := by
  constructor <;> decide

/-- C2 (amended): on any price of an exact number of cents `c`
(`price = c/100`, the precision at which both templates agree), the decomposer
returns `integerPart = floor(price)` as a string, `hasFraction` true iff the
price is not integral, and `fractionPart` = the two-digit fractional string
WITH its leading decimal separator (price 12.50 yields integerPart `"12"` and
fractionPart `".50"`); whenever `hasFraction` holds, `integerPart ++
fractionPart` (with no extra separator) equals the fixed-2-decimal formatting
used by the compact template, to the cent. -/
theorem price_decompose_cents (c : Nat) :
    (decomposePrice ((c : ℚ) / 100)).1 = Nat.toDigits 10 (c / 100) ∧
    ((decomposePrice ((c : ℚ) / 100)).2.1 = true ↔ c % 100 ≠ 0) ∧
    (decomposePrice ((c : ℚ) / 100)).2.2 = '.' :: pad2 (c % 100) ∧
    (c % 100 ≠ 0 →
      (decomposePrice ((c : ℚ) / 100)).1 ++ (decomposePrice ((c : ℚ) / 100)).2.2
        = ratToFixed2 ((c : ℚ) / 100)) ∧
    decomposePrice (mkRat 25 2) = (("12").toList, true, (".50").toList) := by
  have hfrac : jsFract ((c : ℚ) / 100) = ((c % 100 : Nat) : ℚ) / 100 := jsFract_cents c
  have hfracFixed : ratToFixed2 (jsFract ((c : ℚ) / 100)) = '0' :: '.' :: pad2 (c % 100) := by
    rw [hfrac, ratToFixed2_cents]
    rw [Nat.div_eq_of_lt (Nat.mod_lt c (by norm_num)),
      Nat.mod_eq_of_lt (Nat.mod_lt c (by norm_num))]
    rfl
  refine ⟨?_, ?_, ?_, ?_, by decide⟩
  · show intToChars (jsFloor ((c : ℚ) / 100)) = _
    rw [jsFloor, ratFloor_cents, intToChars_natCast]
  · show (decide (jsFract ((c : ℚ) / 100) ≠ 0)) = true ↔ c % 100 ≠ 0
    rw [decide_eq_true_iff, hfrac]
    constructor
    · intro h hc
      apply h
      rw [hc]
      norm_num
    · intro h hq
      apply h
      field_simp at hq
      exact hq
  · show (ratToFixed2 (jsFract ((c : ℚ) / 100))).drop 1 = _
    rw [hfracFixed]
    rfl
  · intro _
    show intToChars (jsFloor ((c : ℚ) / 100)) ++ (ratToFixed2 (jsFract ((c : ℚ) / 100))).drop 1
        = ratToFixed2 ((c : ℚ) / 100)
    rw [jsFloor, ratFloor_cents, intToChars_natCast, hfracFixed, ratToFixed2_cents]
    rfl

/-- Witness instantiating `price_decompose_cents` at 1250 cents (12.50). -/
theorem price_decompose_cents_witness :
    (1250 % 100 ≠ 0) ∧
    ((decomposePrice (((1250 : Nat) : ℚ) / 100)).1 ++ (decomposePrice (((1250 : Nat) : ℚ) / 100)).2.2
      = ratToFixed2 (((1250 : Nat) : ℚ) / 100)) :=
  ⟨by decide, (price_decompose_cents 1250).2.2.2.1 (by decide)⟩

/-! ## Data-mapping lemmas -/

/-- C10: with fewer than two rows (empty sheet, or header only) the mapping
step returns the empty product list and raises no error, for every column
mapping — the missing-column validation is skipped entirely. -/
theorem map_no_rows_no_error (data : List (List Cell)) (m : ColumnMapping)
    (imgs : String → Option String) (h : data.length < 2) :
    mapDataToProducts data m imgs = .ok [] := by
  rw [mapDataToProducts, if_pos h]

/-- Witness for `map_no_rows_no_error`: a header-only sheet whose headers match
none of the mapped columns still maps to `ok []`. -/
theorem map_no_rows_no_error_witness :
    (([[Cell.str "A"]] : List (List Cell)).length < 2) ∧
    mapDataToProducts [[Cell.str "A"]] ⟨"V", "W", "X", "Y", "Z"⟩ (fun _ => none) = .ok [] :=
  ⟨by decide, map_no_rows_no_error [[Cell.str "A"]] ⟨"V", "W", "X", "Y", "Z"⟩
    (fun _ => none) (by decide)⟩

theorem mapDataToProducts_cons_eq (headers : List Cell) (rows : List (List Cell))
    (m : ColumnMapping) (imgs : String → Option String) (hrows : rows ≠ []) :
    mapDataToProducts (headers :: rows) m imgs =
      (match missingColumns headers m with
       | [] => .ok ((rows.filter rowHasData).filterMap (rowToProduct
           ⟨(indexOfCell headers m.codebar).getD 0, (indexOfCell headers m.qte).getD 0,
            (indexOfCell headers m.prix).getD 0, (indexOfCell headers m.designation).getD 0,
            (indexOfCell headers m.reference).getD 0⟩ imgs))
       | missing => .error ("Missing columns: " ++ joinComma missing)) := by
  have hlen : ¬ ((headers :: rows).length < 2) := by
    simp only [List.length_cons]
    have := List.length_pos.mpr hrows
    omega
  rw [mapDataToProducts, if_neg hlen]
  simp only [List.headD_cons, List.drop_succ_cons, List.drop_zero]

theorem missingColumns_ne_nil_iff (headers : List Cell) (m : ColumnMapping) :
    missingColumns headers m ≠ [] ↔
      (indexOfCell headers m.codebar = none ∨ indexOfCell headers m.qte = none ∨
       indexOfCell headers m.prix = none ∨ indexOfCell headers m.designation = none ∨
       indexOfCell headers m.reference = none) := by
  simp only [missingColumns, List.filter_cons, List.filter_nil]
  by_cases h1 : indexOfCell headers m.codebar = none <;>
    by_cases h2 : indexOfCell headers m.qte = none <;>
      by_cases h3 : indexOfCell headers m.prix = none <;>
        by_cases h4 : indexOfCell headers m.designation = none <;>
          by_cases h5 : indexOfCell headers m.reference = none <;>
            simp [h1, h2, h3, h4, h5]

/-- C7: on a sheet with at least one data row, the mapping step fails iff at
least one of the five mapped columns (codebar, qte, prix, designation,
reference) is absent from the headers; when it fails, the error message names
exactly the list of all missing mapped columns at once (in field order), and
on headers `["A","B"]` with a mapping requiring columns A..E it reports
exactly the three missing ones. -/
theorem map_missing_columns (headers : List Cell) (rows : List (List Cell))
    (m : ColumnMapping) (imgs : String → Option String) (hrows : rows ≠ []) :
    ((∃ e, mapDataToProducts (headers :: rows) m imgs = .error e) ↔
      (indexOfCell headers m.codebar = none ∨ indexOfCell headers m.qte = none ∨
       indexOfCell headers m.prix = none ∨ indexOfCell headers m.designation = none ∨
       indexOfCell headers m.reference = none)) ∧
    (missingColumns headers m ≠ [] →
      mapDataToProducts (headers :: rows) m imgs =
        .error ("Missing columns: " ++ joinComma (missingColumns headers m))) ∧
    missingColumns [Cell.str "A", Cell.str "B"] ⟨"A", "B", "C", "D", "E"⟩ = ["C", "D", "E"] ∧
    mapDataToProducts [[Cell.str "A", Cell.str "B"], [Cell.str "x"]]
        ⟨"A", "B", "C", "D", "E"⟩ imgs = .error ("Missing columns: C, D, E") := by
  have herr : missingColumns headers m ≠ [] →
      mapDataToProducts (headers :: rows) m imgs =
        .error ("Missing columns: " ++ joinComma (missingColumns headers m)) := by
    intro hne
    rw [mapDataToProducts_cons_eq headers rows m imgs hrows]
    cases hm : missingColumns headers m with
    | nil => exact absurd hm hne
    | cons a as => rfl
  refine ⟨?_, herr, by decide, ?_⟩
  · constructor
    · rintro ⟨e, he⟩
      by_contra hdisj
      have hm : missingColumns headers m = [] := by
        by_contra hne
        exact hdisj ((missingColumns_ne_nil_iff headers m).mp hne)
      rw [mapDataToProducts_cons_eq headers rows m imgs hrows, hm] at he
      simp at he
    · intro hdisj
      have hne := (missingColumns_ne_nil_iff headers m).mpr hdisj
      exact ⟨_, herr hne⟩
  · have h1 : ([[Cell.str "x"]] : List (List Cell)) ≠ [] := by decide
    rw [mapDataToProducts_cons_eq [Cell.str "A", Cell.str "B"] [[Cell.str "x"]]
      ⟨"A", "B", "C", "D", "E"⟩ imgs h1]
    rfl

/-- Witness instantiating `map_missing_columns` on the A..E example. -/
theorem map_missing_columns_witness :
    mapDataToProducts [[Cell.str "A", Cell.str "B"], [Cell.str "x"]]
        ⟨"A", "B", "C", "D", "E"⟩ (fun _ => none) = .error ("Missing columns: C, D, E") :=
  (map_missing_columns [Cell.str "A", Cell.str "B"] [[Cell.str "x"]]
    ⟨"A", "B", "C", "D", "E"⟩ (fun _ => none) (by decide)).2.2.2

theorem qteOfCell_ne_zero (c : Cell) : qteOfCell c ≠ 0 := by
  cases h : jsParseInt (jsStringOr c ("1")) with
  | none => simp [qteOfCell, h]
  | some n =>
    by_cases hn : n = 0
    · simp [qteOfCell, h, hn]
    · simp [qteOfCell, h, hn]

theorem rowToProduct_qte (idx : ColIdx) (imgs : String → Option String)
    (row : List Cell) (p : Product) (h : rowToProduct idx imgs row = some p) :
    p.qte = qteOfCell (row.getD idx.qte Cell.null) := by
  simp only [rowToProduct] at h
  split at h
  · exact absurd h (by simp)
  · rw [Option.some_inj] at h
    subst h
    rfl

/-- C9 counterexample: a data row whose quantity cell is the string "-2" maps
(without any error or row skip) to a product whose quantity is -2, violating
the claimed invariant `quantity ≥ 1`. -/
theorem quantity_invariant_cex :
    mapDataToProducts
      [[Cell.str "REF", Cell.str "CODE", Cell.str "DES", Cell.str "QTE", Cell.str "PRIX"],
       [Cell.str "r1", Cell.str "c1", Cell.str "d1", Cell.str "-2", Cell.str "5"]]
      ⟨"CODE", "QTE", "PRIX", "DES", "REF"⟩ (fun _ => none)
      = .ok [⟨"c1", -2, mkRat 5 1, "d1", "r1", none⟩] ∧
    ((⟨"c1", -2, mkRat 5 1, "d1", "r1", none⟩ : Product).qte < 1) := by
  constructor
  · rfl
  · decide

/-- C9 (amended): every ProductRecord produced by the mapping step has a
nonzero integer quantity; an absent quantity cell defaults to 1; and a
quantity below 1 can only arise when the cell parses to a negative integer
(`parseInt(...) || 1` maps NaN and 0 to 1 but passes negatives through). -/
theorem quantity_nonzero :
    (∀ (data : List (List Cell)) (m : ColumnMapping) (imgs : String → Option String)
        (ps : List Product), mapDataToProducts data m imgs = .ok ps →
        ∀ p ∈ ps, p.qte ≠ 0) ∧
    qteOfCell Cell.null = 1 ∧
    (∀ c : Cell, 0 ≤ qteOfCell c → 1 ≤ qteOfCell c) := by
  refine ⟨?_, rfl, ?_⟩
  · intro data m imgs ps h p hp
    cases data with
    | nil =>
      rw [mapDataToProducts, if_pos (by simp), Except.ok.injEq] at h
      subst h
      simp at hp
    | cons headers rows =>
      cases rows with
      | nil =>
        rw [mapDataToProducts, if_pos (by simp), Except.ok.injEq] at h
        subst h
        simp at hp
      | cons r rs =>
        cases hm : missingColumns headers m with
        | nil =>
          have heq : mapDataToProducts (headers :: r :: rs) m imgs = Except.ok
              (((r :: rs).filter rowHasData).filterMap (rowToProduct
                ⟨(indexOfCell headers m.codebar).getD 0, (indexOfCell headers m.qte).getD 0,
                 (indexOfCell headers m.prix).getD 0,
                 (indexOfCell headers m.designation).getD 0,
                 (indexOfCell headers m.reference).getD 0⟩ imgs)) := by
            rw [mapDataToProducts_cons_eq headers (r :: rs) m imgs (by simp), hm]
          rw [heq, Except.ok.injEq] at h
          subst h
          obtain ⟨row, _, hrow⟩ := List.mem_filterMap.mp hp
          rw [rowToProduct_qte _ _ _ _ hrow]
          exact qteOfCell_ne_zero _
        | cons a as =>
          have heq : mapDataToProducts (headers :: r :: rs) m imgs =
              Except.error ("Missing columns: " ++ joinComma (a :: as)) := by
            rw [mapDataToProducts_cons_eq headers (r :: rs) m imgs (by simp), hm]
          rw [heq] at h
          exact absurd h (by simp)
  · intro c h0
    cases h : jsParseInt (jsStringOr c ("1")) with
    | none => simp [qteOfCell, h]
    | some n =>
      by_cases hn : n = 0
      · simp [qteOfCell, h, hn]
      · simp [qteOfCell, h, hn] at h0 ⊢
        omega

/-- Witness applying `quantity_nonzero` to the concrete negative-quantity run. -/
theorem quantity_nonzero_witness :
    ((⟨"c1", -2, mkRat 5 1, "d1", "r1", none⟩ : Product).qte ≠ 0) :=
  quantity_nonzero.1
    [[Cell.str "REF", Cell.str "CODE", Cell.str "DES", Cell.str "QTE", Cell.str "PRIX"],
     [Cell.str "r1", Cell.str "c1", Cell.str "d1", Cell.str "-2", Cell.str "5"]]
    ⟨"CODE", "QTE", "PRIX", "DES", "REF"⟩ (fun _ => none)
    [⟨"c1", -2, mkRat 5 1, "d1", "r1", none⟩] (by rfl)
    ⟨"c1", -2, mkRat 5 1, "d1", "r1", none⟩ (by simp)

/-! ## Rendering-trace lemmas -/

theorem pageAuxOps_append (mea : TextMeasure) (enc cache : String → Bool)
    (xs ys : List Product) (i : Nat) :
    pageAuxOps mea enc cache (xs ++ ys) i =
      pageAuxOps mea enc cache xs i ++ pageAuxOps mea enc cache ys (i + xs.length) := by
  induction xs generalizing i with
  | nil => simp [pageAuxOps]
  | cons a rest ih =>
    simp only [List.cons_append, pageAuxOps, List.append_eq, List.append_assoc,
      List.length_cons]
    rw [ih]
    have hidx : i + 1 + rest.length = i + (rest.length + 1) := by omega
    rw [hidx]

theorem pageOps_eq_aux (mea : TextMeasure) (enc cache : String → Bool)
    (l : List Product) (pg : Nat) :
    pageOps mea enc cache l pg = pageAuxOps mea enc cache (pageProducts l pg) 0 := by
  rw [pageOps, layoutPage]
  suffices hgen : ∀ (l' : List Product) (i : Nat),
      ((placeFrom l' i).map (fun pl => drawLabelToPDF mea enc cache pl.product
        (MARGIN_X + (pl.col : ℚ) * LABEL_WIDTH)
        (MARGIN_Y + (pl.row : ℚ) * LABEL_HEIGHT))).flatten
        = pageAuxOps mea enc cache l' i by
    exact hgen (pageProducts l pg) 0
  intro l'
  induction l' with
  | nil =>
    intro i
    simp [placeFrom, pageAuxOps]
  | cons a rest ih =>
    intro i
    simp [placeFrom, pageAuxOps, ih]

theorem pageProducts_indep {α : Type} (pre post : List α) (q1 q2 : α) (pg : Nat)
    (hpg : pg ≠ pre.length / LABELS_PER_PAGE) :
    pageProducts (pre ++ q1 :: post) pg = pageProducts (pre ++ q2 :: post) pg := by
  simp only [pageProducts, LABELS_PER_PAGE_eq]
  simp only [LABELS_PER_PAGE_eq] at hpg
  rcases Nat.lt_or_ge pg (pre.length / 24) with hlt | hge
  · have hle : pg * 24 + 24 ≤ pre.length := by omega
    have hdrop : ∀ (q : α), (pre ++ q :: post).drop (pg * 24)
        = pre.drop (pg * 24) ++ q :: post := by
      intro q
      rw [List.drop_append_eq_append_drop]
      have h0 : pg * 24 - pre.length = 0 := by omega
      rw [h0, List.drop_zero]
    have htake : ∀ (q : α), ((pre.drop (pg * 24)) ++ q :: post).take 24
        = (pre.drop (pg * 24)).take 24 := by
      intro q
      rw [List.take_append_eq_append_take]
      have h0 : 24 - (pre.drop (pg * 24)).length = 0 := by
        rw [List.length_drop]
        omega
      rw [h0, List.take_zero, List.append_nil]
    rw [hdrop q1, hdrop q2, htake q1, htake q2]
  · have hgt : pre.length < pg * 24 := by omega
    have hdrop : ∀ (q : α), (pre ++ q :: post).drop (pg * 24)
        = post.drop (pg * 24 - pre.length - 1) := by
      intro q
      rw [List.drop_append_eq_append_drop]
      rw [List.drop_eq_nil_of_le (by omega), List.nil_append]
      rw [show pg * 24 - pre.length = (pg * 24 - pre.length - 1) + 1 by omega]
      rw [List.drop_succ_cons]
      simp
    rw [hdrop q1, hdrop q2]

theorem pageProducts_center {α : Type} (pre post : List α) (q : α) :
    pageProducts (pre ++ q :: post) (pre.length / LABELS_PER_PAGE)
      = pre.drop (pre.length / LABELS_PER_PAGE * LABELS_PER_PAGE)
        ++ q :: post.take (LABELS_PER_PAGE - pre.length % LABELS_PER_PAGE - 1) := by
  simp only [pageProducts, LABELS_PER_PAGE_eq]
  rw [List.drop_append_eq_append_drop]
  have h0 : pre.length / 24 * 24 - pre.length = 0 := by omega
  rw [h0, List.drop_zero]
  rw [List.take_append_eq_append_take]
  have hlen : (pre.drop (pre.length / 24 * 24)).length = pre.length % 24 := by
    rw [List.length_drop]
    omega
  have htk : (pre.drop (pre.length / 24 * 24)).take 24 = pre.drop (pre.length / 24 * 24) := by
    apply List.take_of_length_le
    rw [hlen]
    omega
  rw [htk, hlen]
  rw [show 24 - pre.length % 24 = (24 - pre.length % 24 - 1) + 1 by omega]
  rw [List.take_succ_cons]
  simp

/-- C8: when the barcode text is not encodable (JsBarcode would throw — in
particular when it is empty), the label's trace contains no barcode symbol
(no PNG image op) and no caption text op at the caption baseline
`y + LABEL_HEIGHT - 1`, yet still contains the border rectangle, the image or
placeholder ops, the designation, reference and price text ops, and the
quantity op whenever qte > 1; moreover rendering is per-label local: any page
not containing a given position renders identically whatever product sits
there, and on that product's own page the trace splits as `C ++ label ++ D`
with `C`, `D` independent of the product. -/
theorem barcode_failure_isolated (mea : TextMeasure) (enc cache : String → Bool)
    (p : Product) (x y : ℚ) (h : enc p.codebar = false) :
    ((drawLabelToPDF mea enc cache p x y).all (fun op => !op.isBarcodeSymbol) = true) ∧
    (∀ (s : List Char) (cx : ℚ),
      DrawOp.text s cx (y + LABEL_HEIGHT - 1) ∉ drawLabelToPDF mea enc cache p x y) ∧
    DrawOp.rect x y LABEL_WIDTH LABEL_HEIGHT ∈ drawLabelToPDF mea enc cache p x y ∧
    (cache p.reference = true →
      DrawOp.addImage .jpeg (x + 2) (y + 2) 15 15 ∈ drawLabelToPDF mea enc cache p x y) ∧
    (cache p.reference = false →
      DrawOp.rectFill (x + 2) (y + 2) 15 15 ∈ drawLabelToPDF mea enc cache p x y ∧
      DrawOp.text noImageText (x + 2 + (15 - mea 6 .normal noImageText) / 2) (y + 2 + 15 / 2)
        ∈ drawLabelToPDF mea enc cache p x y) ∧
    DrawOp.text (fit (mea 10 .bold) (LABEL_WIDTH - 2 * 2 - 15 - 2 - 15) p.designation.toList)
      (x + 2 + 15 + 2) (y + 2 + 4) ∈ drawLabelToPDF mea enc cache p x y ∧
    DrawOp.text (("Ref: ") ++ p.reference).toList (x + 2 + 15 + 2) (y + 2 + 8)
      ∈ drawLabelToPDF mea enc cache p x y ∧
    DrawOp.text (ratToFixed2 p.prix ++ (" €").toList)
      (x + LABEL_WIDTH - 2 - mea 12 .bold (ratToFixed2 p.prix ++ (" €").toList)) (y + 2 + 4)
      ∈ drawLabelToPDF mea enc cache p x y ∧
    (1 < p.qte →
      DrawOp.text (("Qté: ").toList ++ (toString p.qte).toList)
        (x + LABEL_WIDTH - 2 - mea 7 .normal (("Qté: ").toList ++ (toString p.qte).toList))
        (y + 2 + 8) ∈ drawLabelToPDF mea enc cache p x y) ∧
    (∀ (pre post : List Product) (q1 q2 : Product) (pg : Nat),
      pg ≠ pre.length / LABELS_PER_PAGE →
      pageOps mea enc cache (pre ++ q1 :: post) pg
        = pageOps mea enc cache (pre ++ q2 :: post) pg) ∧
    (∀ (pre post : List Product), ∃ C D, ∀ q : Product,
      pageOps mea enc cache (pre ++ q :: post) (pre.length / LABELS_PER_PAGE) =
        C ++ drawLabelToPDF mea enc cache q
          (MARGIN_X + ((pre.length % LABELS_PER_PAGE % LABELS_PER_ROW : Nat) : ℚ) * LABEL_WIDTH)
          (MARGIN_Y + ((pre.length % LABELS_PER_PAGE / LABELS_PER_ROW : Nat) : ℚ) * LABEL_HEIGHT)
        ++ D) ∧
    (∀ (pre post : List Product) (q1 q2 : Product),
      totalPages (pre ++ q1 :: post).length = totalPages (pre ++ q2 :: post).length) := by
  refine ⟨?_, ?_, ?_, ?_, ?_, ?_, ?_, ?_, ?_, ?_, ?_, ?_⟩
  · by_cases hc : cache p.reference <;> by_cases hq : 1 < p.qte <;>
      simp [drawLabelToPDF, h, hc, hq, drawPlaceholderImage, DrawOp.isBarcodeSymbol]
  · intro s cx hmem
    by_cases hc : cache p.reference
    · by_cases hq : 1 < p.qte
      · simp [drawLabelToPDF, h, hc, hq, LABEL_HEIGHT] at hmem
        rcases hmem with ⟨_, _, hy⟩ | ⟨_, _, hy⟩ | ⟨_, _, hy⟩ | ⟨_, _, hy⟩ <;> linarith
      · simp [drawLabelToPDF, h, hc, hq, LABEL_HEIGHT] at hmem
        rcases hmem with ⟨_, _, hy⟩ | ⟨_, _, hy⟩ | ⟨_, _, hy⟩ <;> linarith
    · by_cases hq : 1 < p.qte
      · simp [drawLabelToPDF, h, hc, hq, drawPlaceholderImage, LABEL_HEIGHT] at hmem
        rcases hmem with ⟨_, _, hy⟩ | ⟨_, _, hy⟩ | ⟨_, _, hy⟩ | ⟨_, _, hy⟩ | ⟨_, _, hy⟩ <;>
          linarith
      · simp [drawLabelToPDF, h, hc, hq, drawPlaceholderImage, LABEL_HEIGHT] at hmem
        rcases hmem with ⟨_, _, hy⟩ | ⟨_, _, hy⟩ | ⟨_, _, hy⟩ | ⟨_, _, hy⟩ <;> linarith
  · simp [drawLabelToPDF, h]
  · intro hc
    simp [drawLabelToPDF, h, hc]
  · intro hc
    constructor <;> simp [drawLabelToPDF, h, hc, drawPlaceholderImage]
  · simp [drawLabelToPDF, h]
  · simp [drawLabelToPDF, h]
  · simp [drawLabelToPDF, h]
  · intro hq
    simp [drawLabelToPDF, h, hq]
  · intro pre post q1 q2 pg hpg
    rw [pageOps_eq_aux, pageOps_eq_aux, pageProducts_indep pre post q1 q2 pg hpg]
  · intro pre post
    refine ⟨pageAuxOps mea enc cache
        (pre.drop (pre.length / LABELS_PER_PAGE * LABELS_PER_PAGE)) 0,
      pageAuxOps mea enc cache
        (post.take (LABELS_PER_PAGE - pre.length % LABELS_PER_PAGE - 1))
        (pre.length % LABELS_PER_PAGE + 1), ?_⟩
    intro q
    rw [pageOps_eq_aux, pageProducts_center, pageAuxOps_append]
    have hlen : (pre.drop (pre.length / LABELS_PER_PAGE * LABELS_PER_PAGE)).length
        = pre.length % LABELS_PER_PAGE := by
      rw [List.length_drop]
      simp only [LABELS_PER_PAGE_eq]
      omega
    simp only [pageAuxOps, hlen, Nat.zero_add, List.append_assoc]
  · intro pre post q1 q2
    simp [totalPages]

/-- Witness applying `barcode_failure_isolated` to a product with an empty
barcode text (which CODE128 cannot encode). -/
theorem barcode_failure_isolated_witness :
    ((fun s : String => !(s == "")) ("") = false) ∧
    DrawOp.rect 0 0 LABEL_WIDTH LABEL_HEIGHT ∈
      drawLabelToPDF (fun _ _ s => (s.length : ℚ)) (fun s => !(s == "")) (fun _ => false)
        ⟨"", 1, 0, "d", "r", none⟩ 0 0 :=
  ⟨by decide, (barcode_failure_isolated (fun _ _ s => (s.length : ℚ)) (fun s => !(s == ""))
    (fun _ => false) ⟨"", 1, 0, "d", "r", none⟩ 0 0 (by decide)).2.2.1⟩

theorem addPage_not_mem_drawLabel (mea : TextMeasure) (enc cache : String → Bool)
    (p : Product) (x y : ℚ) :
    DrawOp.addPage ∉ drawLabelToPDF mea enc cache p x y := by
  intro hmem
  by_cases hc : cache p.reference <;> by_cases hq : 1 < p.qte <;>
    by_cases hb : enc p.codebar <;>
      simp [drawLabelToPDF, hc, hq, hb, drawPlaceholderImage] at hmem

theorem addPage_not_mem_pageAuxOps (mea : TextMeasure) (enc cache : String → Bool)
    (l : List Product) (i : Nat) :
    DrawOp.addPage ∉ pageAuxOps mea enc cache l i := by
  induction l generalizing i with
  | nil => simp [pageAuxOps]
  | cons a rest ih =>
    intro hmem
    simp only [pageAuxOps] at hmem
    rcases List.mem_append.mp hmem with h1 | h2
    · exact addPage_not_mem_drawLabel mea enc cache a _ _ h1
    · exact ih (i + 1) h2

theorem addPage_not_mem_pageOps (mea : TextMeasure) (enc cache : String → Bool)
    (l : List Product) (pg : Nat) :
    DrawOp.addPage ∉ pageOps mea enc cache l pg := by
  rw [pageOps_eq_aux]
  exact addPage_not_mem_pageAuxOps mea enc cache _ 0

theorem count_addPage_generate (mea : TextMeasure) (enc cache : String → Bool)
    (ps : List Product) :
    (generatePDFOps mea enc cache ps).count DrawOp.addPage = totalPages ps.length - 1 := by
  rw [generatePDFOps]
  generalize totalPages ps.length = N
  induction N with
  | zero => simp
  | succ n ih =>
    rw [List.range_succ]
    simp only [List.map_append, List.flatten_append, List.count_append, List.map_cons,
      List.map_nil, List.flatten_cons, List.flatten_nil, List.append_nil]
    rw [ih]
    have hpage : (pageOps mea enc cache ps n).count DrawOp.addPage = 0 :=
      List.count_eq_zero.mpr (addPage_not_mem_pageOps mea enc cache ps n)
    rw [hpage]
    by_cases hn : 0 < n
    · rw [if_pos hn]
      simp
      omega
    · rw [if_neg hn]
      simp
      omega

/-- C1 (amended): page layout produces `ceil(n/24)` placement pages (none for
an empty product list) — but `generatePDF` saves the `price-labels.pdf` output
document unconditionally, so an empty product list still yields a saved
one-page blank document (jsPDF's initial page, carrying no drawing ops) rather
than no output, and for a nonempty list the saved document has exactly
`ceil(n/24)` pages; every non-final page holds exactly 24 placements and the
final page holds `n mod 24` placements (24 when `n` is a positive multiple of
24); within every page the `(row, col)` pairs are pairwise distinct and lie
inside `{0..7} × {0..2}`; a page holding 24 placements exactly covers
`{0..7} × {0..2}` (a partial final page only covers an initial segment). -/
theorem layout_grid_tiling (α : Type) (products : List α) :
    (layoutPages products).length = (products.length + 23) / 24 ∧
    (products.length = 0 → layoutPages products = []) ∧
    (∀ pg, pg + 1 < totalPages products.length → (layoutPage products pg).length = 24) ∧
    (0 < products.length →
      (layoutPage products (totalPages products.length - 1)).length =
        if products.length % 24 = 0 then 24 else products.length % 24) ∧
    (∀ pg, ((layoutPage products pg).map (fun pl => (pl.row, pl.col))).Nodup) ∧
    (∀ pg, ∀ pl ∈ layoutPage products pg, pl.row < 8 ∧ pl.col < 3) ∧
    (∀ pg, (layoutPage products pg).length = 24 →
      ∀ r, r < 8 → ∀ c, c < 3 → ∃ pl ∈ layoutPage products pg, pl.row = r ∧ pl.col = c) ∧
    (∀ (mea : TextMeasure) (enc cache : String → Bool) (ps : List Product),
      (generatePDF mea enc cache ps).filename = PDF_FILENAME) ∧
    (∀ (mea : TextMeasure) (enc cache : String → Bool),
      generatePDF mea enc cache [] = ⟨PDF_FILENAME, 1, []⟩) ∧
    (∀ (mea : TextMeasure) (enc cache : String → Bool) (ps : List Product),
      0 < ps.length → (generatePDF mea enc cache ps).pageCount = totalPages ps.length) := by
  refine ⟨?_, ?_, ?_, ?_, ?_, ?_, ?_, ?_, ?_, ?_⟩

  · simp [layoutPages, totalPages, LABELS_PER_PAGE_eq]
  · intro h
    simp [layoutPages, totalPages, LABELS_PER_PAGE_eq, h]
  · intro pg hpg
    rw [layoutPage_length]
    simp only [totalPages, LABELS_PER_PAGE_eq] at hpg ⊢
    omega
  · intro hn
    rw [layoutPage_length]
    simp only [totalPages, LABELS_PER_PAGE_eq]
    split <;> omega
  · intro pg
    rw [layoutPage_map_rowcol]
    exact (List.nodup_range' ..).map rowcol_injective
  · intro pg pl hpl
    have hmem : (pl.row, pl.col) ∈ (layoutPage products pg).map (fun pl => (pl.row, pl.col)) :=
      List.mem_map_of_mem _ hpl
    rw [layoutPage_map_rowcol] at hmem
    obtain ⟨j, hj, hje⟩ := List.mem_map.mp hmem
    have hjlt : j < (pageProducts products pg).length := by
      have := List.mem_range'_1.mp hj
      omega
    have hle : (pageProducts products pg).length ≤ 24 := by
      rw [pageProducts_length, LABELS_PER_PAGE_eq]
      omega
    obtain ⟨h1, h2⟩ := Prod.mk.injEq .. ▸ hje
    simp only [LABELS_PER_ROW] at h1 h2
    omega
  · intro pg hlen r hr c hc
    have hmem : (r, c) ∈ (layoutPage products pg).map (fun pl => (pl.row, pl.col)) := by
      rw [layoutPage_map_rowcol]
      have hlen' : (pageProducts products pg).length = 24 := by
        have := layoutPage_length products pg
        have := pageProducts_length products pg
        omega
      rw [hlen']
      refine List.mem_map.mpr ⟨3 * r + c, ?_, ?_⟩
      · refine List.mem_range'_1.mpr ⟨Nat.zero_le _, ?_⟩
        omega
      · simp only [LABELS_PER_ROW, Prod.mk.injEq]
        omega
    obtain ⟨pl, hpl, hple⟩ := List.mem_map.mp hmem
    obtain ⟨h1, h2⟩ := Prod.mk.injEq .. ▸ hple
    exact ⟨pl, hpl, h1, h2⟩

  · intro mea enc cache ps
    rfl
  · intro mea enc cache
    rfl
  · intro mea enc cache ps hps
    show 1 + (generatePDFOps mea enc cache ps).count DrawOp.addPage = totalPages ps.length
    rw [count_addPage_generate]
    have h1 : 1 ≤ totalPages ps.length := by
      simp only [totalPages, LABELS_PER_PAGE_eq]
      omega
    omega

/-- Witness instantiating `layout_grid_tiling` at concrete one-product and
empty lists. -/
theorem layout_grid_tiling_witness :
    (layoutPages ([0] : List Nat)).length = (([0] : List Nat).length + 23) / 24 ∧
    (layoutPage ([0] : List Nat) (totalPages ([0] : List Nat).length - 1)).length =
      (if ([0] : List Nat).length % 24 = 0 then 24 else ([0] : List Nat).length % 24) ∧
    generatePDF (fun _ _ s => (s.length : ℚ)) (fun s => !(s == "")) (fun _ => false) []
      = ⟨PDF_FILENAME, 1, []⟩ ∧
    (0 < ([⟨"c", 1, 0, "d", "r", none⟩] : List Product).length) ∧
    (generatePDF (fun _ _ s => (s.length : ℚ)) (fun s => !(s == "")) (fun _ => false)
        [⟨"c", 1, 0, "d", "r", none⟩]).pageCount
      = totalPages ([⟨"c", 1, 0, "d", "r", none⟩] : List Product).length := by
  have h := layout_grid_tiling Nat [0]
  refine ⟨h.1, h.2.2.2.1 (by decide), ?_, by decide, ?_⟩
  · exact h.2.2.2.2.2.2.2.2.1 (fun _ _ s => (s.length : ℚ)) (fun s => !(s == ""))
      (fun _ => false)
  · exact h.2.2.2.2.2.2.2.2.2 (fun _ _ s => (s.length : ℚ)) (fun s => !(s == ""))
      (fun _ => false) [⟨"c", 1, 0, "d", "r", none⟩] (by decide)
